import Mathlib

/-!
Verification of the LDA Gibbs sampling engine of
`topicmodels/LDA/gibbs.py` (classes `LDAGibbs` and `QueryGibbs`).

Shallow-embedding conventions:

* numpy arrays are nested lists.  The sample axis (axis 0 of
  `sampled_topics`, axis 2 of `tt` and `dt` in the source) is modelled as
  the OUTER list, so `np.concatenate(..., axis=2)` along the sample axis
  becomes list append and `np.take(..., axis=2)` becomes indexed selection.
* the source runs under Python 2 (`long`, `dict.keys()[...]` indexing, the
  disabled `__future__` division at the top of the file), so `50/self.K`
  and `200/self.V` are integer floor divisions.
* the global numpy random state is threaded explicitly as a natural-number
  state through every operation that draws random numbers.
* Python `assert` failures and numpy index errors are modelled by `Option`
  (`none` = the call raises).
* the compiled sampler module `topicmodels.samplers.samplers_lda` is not
  part of this repository snapshot; its functions (`sampler`, `dt_comp`,
  `tt_comp`, `sampler_query`) are modelled from the spec, as flagged in
  their doc comments.
-/

namespace TopicModels

/-- A Python numeric argument.  `set_priors` checks `type(x) == float`,
which distinguishes ints from floats, so hyperparameter arguments are
modelled as a tagged value.  Python floats are modelled as rationals. -/
inductive PyNum where
  | pyInt : ℤ → PyNum
  | pyFloat : ℚ → PyNum
deriving DecidableEq

/-- Whether a Python numeric value satisfies `type(x) == float`. -/
def PyNum.isFloat : PyNum → Bool
  | PyNum.pyInt _ => false
  | PyNum.pyFloat _ => true

/-- Numeric content of a Python numeric value. -/
def PyNum.val : PyNum → ℚ
  | PyNum.pyInt n => (n : ℚ)
  | PyNum.pyFloat q => q

/-- Deterministic pseudo-random step (a linear congruential generator),
standing in for numpy's seeded global generator: returns the draw and the
next generator state. -/
def rngStep (s : ℕ) : ℕ × ℕ :=
  let s2 := (s * 1103515245 + 12345) % 2 ^ 31
  (s2, s2)

/-- `n` draws uniform over `0..k-1`, as `np.random.random_integers(0, k-1, n)`;
returns the draws and the advanced generator state. -/
def randInts : ℕ → ℕ → ℕ → List ℕ × ℕ
  | 0, _, r => ([], r)
  | n + 1, k, r =>
      let p := rngStep r
      let rest := randInts n k p.2
      (p.1 % k :: rest.1, rest.2)

/-- A `D × K` (or `K × V`) zero count matrix. -/
def zeros2 (a b : ℕ) : List (List ℕ) :=
  List.replicate a (List.replicate b 0)

/-- Apply `f` to entry `j` of row `i` of a nested-list count matrix. -/
def bump2 (m : List (List ℕ)) (i j : ℕ) (f : ℕ → ℕ) : List (List ℕ) :=
  m.set i ((m.getD i []).set j (f ((m.getD i []).getD j 0)))

/-- Document-topic count matrix `n_dk` (`D × K`) of an assignment vector:
`n_dk[d][k]` counts tokens of document `d` assigned topic `k` (spec §3). -/
def ndkOf (docid assign : List ℕ) (D K : ℕ) : List (List ℕ) :=
  (docid.zip assign).foldl (fun m p => bump2 m p.1 p.2 (· + 1)) (zeros2 D K)

/-- Topic-term count matrix `n_kw` (`K × V`) of an assignment vector:
`n_kw[k][w]` counts occurrences of vocabulary item `w` assigned topic `k`
(spec §3). -/
def nkwOf (tokens assign : List ℕ) (K V : ℕ) : List (List ℕ) :=
  (tokens.zip assign).foldl (fun m p => bump2 m p.2 p.1 (· + 1)) (zeros2 K V)

/-- The count matrices maintained by one Gibbs chain (spec §3). -/
structure Counts where
  ndk : List (List ℕ)
  nkw : List (List ℕ)
  nk : List ℕ
deriving DecidableEq

/-- Initial count matrices implied by an assignment vector. -/
def countsOf (docid tokens assign : List ℕ) (D K V : ℕ) : Counts :=
  { ndk := ndkOf docid assign D K
    nkw := nkwOf tokens assign K V
    nk := (nkwOf tokens assign K V).map (fun row => row.foldl (· + ·) 0) }

/-- The live state of one Gibbs chain: assignment vector, count matrices
and random-generator state. -/
structure Chain where
  assign : List ℕ
  cnt : Counts
  rng : ℕ
deriving DecidableEq

/-- Index of the first cumulative weight exceeding `tgt` (the categorical
draw of spec §4.1 step 3, mapped onto cumulative weights); the last index
is used when no partial sum exceeds it. -/
def pickIdx : List ℚ → ℚ → ℕ
  | [], _ => 0
  | [_], _ => 0
  | x :: y :: t, tgt => if tgt < x then 0 else pickIdx (y :: t) (tgt - x) + 1

/-- Modelled from the spec: one token update of the collapsed-Gibbs sampler
(spec §4.1 steps 1–4) at token position `i`: decrement the counts of the
current assignment, form the unnormalized conditional weights
`(n_dk[d,k] + alpha) * (n_kw[k,w] + beta) / (n_k[k] + V*beta)`, draw a new
topic, and increment its counts.  (The compiled routine lives in the
missing `samplers_lda` module.) -/
def tokenUpdate (V K : ℕ) (alpha beta : ℚ) (docid tokens : List ℕ)
    (st : Chain) (i : ℕ) : Chain :=
  let d := docid.getD i 0
  let w := tokens.getD i 0
  let z := st.assign.getD i 0
  let c := st.cnt
  let c1 : Counts :=
    { ndk := bump2 c.ndk d z (· - 1)
      nkw := bump2 c.nkw z w (· - 1)
      nk := c.nk.set z (c.nk.getD z 0 - 1) }
  let wts := (List.range K).map (fun k =>
    (((c1.ndk.getD d []).getD k 0 : ℚ) + alpha) *
      (((c1.nkw.getD k []).getD w 0 : ℚ) + beta) /
      ((c1.nk.getD k 0 : ℚ) + (V : ℚ) * beta))
  let p := rngStep st.rng
  let tgt := ((p.1 % 65536 : ℕ) : ℚ) / 65536 * (wts.foldl (· + ·) 0)
  let z2 := pickIdx wts tgt
  let c2 : Counts :=
    { ndk := bump2 c1.ndk d z2 (· + 1)
      nkw := bump2 c1.nkw z2 w (· + 1)
      nk := c1.nk.set z2 (c1.nk.getD z2 0 + 1) }
  { assign := st.assign.set i z2, cnt := c2, rng := p.2 }

/-- Modelled from the spec: one full Gibbs iteration = one pass over all
`N` token positions in the fixed corpus order (spec §4.1). -/
def sweep (V K N : ℕ) (alpha beta : ℚ) (docid tokens : List ℕ)
    (st : Chain) : Chain :=
  (List.range N).foldl (tokenUpdate V K alpha beta docid tokens) st

/-- `n` consecutive Gibbs iterations. -/
def sweepN (V K N : ℕ) (alpha beta : ℚ) (docid tokens : List ℕ) :
    ℕ → Chain → Chain
  | 0, st => st
  | n + 1, st =>
      sweepN V K N alpha beta docid tokens n
        (sweep V K N alpha beta docid tokens st)

/-- Modelled from the spec: retain `s` snapshots, running `thinning`
iterations before each retained snapshot (spec §4.2). -/
def retain (V K N : ℕ) (alpha beta : ℚ) (docid tokens : List ℕ)
    (thinning : ℕ) : ℕ → Chain → List (List ℕ) × Chain
  | 0, st => ([], st)
  | s + 1, st =>
      let st2 := sweepN V K N alpha beta docid tokens thinning st
      let rest := retain V K N alpha beta docid tokens thinning s st2
      (st2.assign :: rest.1, rest.2)

/-- Modelled from the spec: `samplers_lda.sampler` (the compiled sampler
module is not under the repository snapshot).  Runs `burnin +
thinning*samples` Gibbs iterations from the given seed assignment,
retaining one snapshot per `thinning` iterations after burn-in, and
returns the retained snapshots together with the advanced random state
(spec §4.1–§4.2). -/
def sampler (docid tokens seed : List ℕ) (N V K D : ℕ) (alpha beta : ℚ)
    (burnin thinning samples : ℕ) (rng : ℕ) : List (List ℕ) × ℕ :=
  let st0 : Chain := ⟨seed, countsOf docid tokens seed D K V, rng⟩
  let p := retain V K N alpha beta docid tokens thinning samples
    (sweepN V K N alpha beta docid tokens burnin st0)
  (p.1, p.2.rng)

/-- Modelled from the spec: `samplers_lda.dt_comp` — document-topic
posterior means for one snapshot,
`theta[d][k] = (n_dk[d,k] + alpha) / (sum_k n_dk[d,k] + K*alpha)`
(spec §4.3). -/
def dt_comp1 (docid assign : List ℕ) (K D : ℕ) (alpha : ℚ) :
    List (List ℚ) :=
  let ndk := ndkOf docid assign D K
  (List.range D).map (fun d =>
    let row := ndk.getD d []
    let tot : ℕ := row.foldl (· + ·) 0
    (List.range K).map (fun k =>
      ((row.getD k 0 : ℚ) + alpha) / ((tot : ℚ) + (K : ℚ) * alpha)))

/-- Modelled from the spec: `samplers_lda.tt_comp` — topic-term posterior
means for one snapshot (a `V × K` matrix),
`phi[w][k] = (n_kw[k,w] + beta) / (n_k[k] + V*beta)` (spec §4.3). -/
def tt_comp1 (tokens assign : List ℕ) (V K : ℕ) (beta : ℚ) :
    List (List ℚ) :=
  let nkw := nkwOf tokens assign K V
  (List.range V).map (fun w =>
    (List.range K).map (fun k =>
      (((nkw.getD k []).getD w 0 : ℚ) + beta) /
        ((((nkw.getD k []).foldl (· + ·) 0 : ℕ) : ℚ) + (V : ℚ) * beta)))

/-- The retained sample archive: assignment snapshots (`sampled_topics`,
sample-major), the derived topic-term slices (`tt`, each `V × K`) and
document-topic slices (`dt`, each `D × K`), and the stored sample counter
`self.samples`. -/
structure Archive where
  sampled_topics : List (List ℕ)
  tt : List (List (List ℚ))
  dt : List (List (List ℚ))
  samples : ℕ
deriving DecidableEq

/-- State of an `LDAGibbs` instance (gibbs.py lines 20–49).  `token_key`
is the vocabulary map, with the token at list position `i` mapped to index
`i` (Python builds it by enumerating a `set`, whose order is
implementation-defined; the embedding fixes first-occurrence order — no
claim depends on the particular bijection).  `archive` is `none` until
`sample` or `set_sampled_topics` first runs (the Python attributes do not
exist before that). -/
structure LDAGibbs where
  K : ℕ
  D : ℕ
  V : ℕ
  N : ℕ
  token_key : List String
  tokens : List ℕ
  docid : List ℕ
  topic_seed : List ℕ
  alpha : ℚ
  beta : ℚ
  rng : ℕ
  archive : Option Archive
deriving DecidableEq

namespace LDAGibbs

/-- Vocabulary built from the flattened token stream, deduplicated. -/
def buildKey (doc_list : List String) : List String :=
  doc_list.foldl (fun acc t => if t ∈ acc then acc else acc ++ [t]) []

/-- Per-token document ids: `[[i]*len(d) for i, d in enumerate(docs)]`
flattened. -/
def docidOf (docs : List (List String)) : List ℕ :=
  (docs.enum.map (fun p => List.replicate p.2.length p.1)).flatten

/-- `LDAGibbs.__init__(docs, K)` (gibbs.py lines 22–49).  `rng0` is the
state of the ambient numpy generator, consumed by the random initial
topic seed.  `50/self.K` and `200/self.V` are Python 2 integer floor
divisions. -/
def init (docs : List (List String)) (K : ℕ) (rng0 : ℕ) : LDAGibbs :=
  let doc_list := docs.flatten
  let token_key := buildKey doc_list
  let tokens := doc_list.map (fun t => token_key.indexOf t)
  let p := randInts tokens.length K rng0
  { K := K
    D := docs.length
    V := token_key.length
    N := tokens.length
    token_key := token_key
    tokens := tokens
    docid := docidOf docs
    topic_seed := p.1
    alpha := ((50 / K : ℕ) : ℚ)
    beta := ((200 / token_key.length : ℕ) : ℚ)
    rng := p.2
    archive := none }

/-- `LDAGibbs.set_priors` (gibbs.py lines 51–62): asserts
`type(alpha) == float and type(beta) == float` and stores the values.
`none` models the assertion failure. -/
def set_priors (m : LDAGibbs) (alpha beta : PyNum) : Option LDAGibbs :=
  match alpha, beta with
  | PyNum.pyFloat a, PyNum.pyFloat b => some { m with alpha := a, beta := b }
  | _, _ => none

/-- `LDAGibbs.set_seed` (gibbs.py lines 64–72): asserts shape `(N,)`. -/
def set_seed (m : LDAGibbs) (seed : List ℕ) : Option LDAGibbs :=
  if seed.length = m.N then some { m with topic_seed := seed } else none

/-- `LDAGibbs.dt_comp` (gibbs.py lines 142–156): one document-topic slice
per snapshot (the sample axis, axis 2 in the source, is the outer list). -/
def dt_comp (m : LDAGibbs) (rows : List (List ℕ)) : List (List (List ℚ)) :=
  rows.map (fun a => dt_comp1 m.docid a m.K m.D m.alpha)

/-- `LDAGibbs.tt_comp` (gibbs.py lines 158–172): one topic-term slice per
snapshot. -/
def tt_comp (m : LDAGibbs) (rows : List (List ℕ)) : List (List (List ℚ)) :=
  rows.map (fun a => tt_comp1 m.tokens a m.V m.K m.beta)

/-- `LDAGibbs.set_sampled_topics` (gibbs.py lines 74–93): a 1-D input is
reshaped to one row; `samples` becomes the row count and the derived
matrices are recomputed. -/
def set_sampled_topics (m : LDAGibbs) (inp : List ℕ ⊕ List (List ℕ)) :
    LDAGibbs :=
  let rows :=
    (match inp with
      | Sum.inl v => [v]
      | Sum.inr r => r)
  let ar : Archive :=
    { sampled_topics := rows
      tt := m.tt_comp rows
      dt := m.dt_comp rows
      samples := rows.length }
  { m with archive := some ar }

/-- `LDAGibbs.sample(burnin, thinning, samples, append)` (gibbs.py lines
95–140).  With an existing archive and `append=True`, the chain resumes
from row `self.samples - 1` of the archive and the new snapshots and
derived slices are concatenated on; otherwise a fresh chain starts from
`self.topic_seed`. -/
def sample (m : LDAGibbs) (burnin thinning samples : ℕ) (append : Bool) :
    LDAGibbs :=
  match m.archive, append with
  | some ar, true =>
      let start := ar.sampled_topics.getD (ar.samples - 1) []
      let p := sampler m.docid m.tokens start m.N m.V m.K m.D
        m.alpha m.beta burnin thinning samples m.rng
      let ar2 : Archive :=
        { sampled_topics := ar.sampled_topics ++ p.1
          tt := ar.tt ++ m.tt_comp p.1
          dt := ar.dt ++ m.dt_comp p.1
          samples := ar.samples + samples }
      { m with rng := p.2, archive := some ar2 }
  | _, _ =>
      let p := sampler m.docid m.tokens m.topic_seed m.N m.V m.K m.D
        m.alpha m.beta burnin thinning samples m.rng
      let ar2 : Archive :=
        { sampled_topics := p.1
          tt := m.tt_comp p.1
          dt := m.dt_comp p.1
          samples := samples }
      { m with rng := p.2, archive := some ar2 }

/-- Python slice `l[a:]` for an integer (possibly negative) start. -/
def pySliceFrom {α : Type} (a : ℤ) (l : List α) : List α :=
  if a < 0 then l.drop ((l.length : ℤ) + a).toNat else l.drop a.toNat

/-- Resolution of one (possibly negative) numpy index against axis length
`len`: valid iff `-len ≤ i < len`, negative indices counting from the
end. -/
def npTakeIdx (len : ℕ) (i : ℤ) : Option ℕ :=
  if 0 ≤ i ∧ i < (len : ℤ) then some i.toNat
  else if -(len : ℤ) ≤ i ∧ i < 0 then some ((len : ℤ) + i).toNat
  else none

/-- `np.take(l, idxs)` along the (outer) sample axis: `none` models the
`IndexError` raised when any index is out of range. -/
def npTake {α : Type} (l : List α) : List ℤ → Option (List α)
  | [] => some []
  | i :: rest =>
      match (npTakeIdx l.length i).bind (fun j => l.get? j), npTake l rest with
      | some x, some xs => some (x :: xs)
      | _, _ => none

/-- The common `np.take` phase of `samples_keep`: rebuild the three
archive components and the counter `self.samples = len(index)` from one
resolved index list; `none` models a raised `IndexError`. -/
def keepIdx (m : LDAGibbs) (ar : Archive) (idx : List ℤ) : Option LDAGibbs :=
  match npTake ar.sampled_topics idx, npTake ar.tt idx,
    npTake ar.dt idx with
  | some st, some tt2, some dt2 =>
      let ar2 : Archive :=
        { sampled_topics := st, tt := tt2, dt := dt2,
          samples := idx.length }
      some { m with archive := some ar2 }
  | _, _, _ => none

/-- `LDAGibbs.samples_keep(index)` (gibbs.py lines 211–226): an integer
index is turned into `range(self.samples)[-index:]`; the retained
snapshots, derived slices and the counter are rebuilt by `np.take`.
`none` models a raised `IndexError` (or the missing-archive
`AttributeError`). -/
def samples_keep (m : LDAGibbs) (index : ℤ ⊕ List ℤ) : Option LDAGibbs :=
  match m.archive with
  | none => none
  | some ar =>
      match index with
      | Sum.inl n =>
          keepIdx m ar ((pySliceFrom (-n) (List.range ar.samples)).map Int.ofNat)
      | Sum.inr l => keepIdx m ar l

end LDAGibbs

/-- A query-time topic seed: the default is a single length-`N` vector,
while `QueryGibbs.set_seed` installs a `samples × N` array. -/
inductive Seed where
  | oneD : List ℕ → Seed
  | twoD : List (List ℕ) → Seed
deriving DecidableEq

/-- A numpy 3-D topic-term array of shape `(V, K, samples)` as supplied to
`QueryGibbs`: the shape is explicit, and the sample axis (axis 2) is
modelled as the outer list of `V × K` slices, so `tt[:, :, s]` is
`slices[s]`. -/
structure TTArr where
  V : ℕ
  K : ℕ
  slices : List (List (List ℚ))
deriving DecidableEq

/-- State of a `QueryGibbs` instance (gibbs.py lines 326–366).
`sampled_topics` and `dt` are `none` until `query` first runs. -/
structure QueryGibbs where
  docs : List (List String)
  D : ℕ
  V : ℕ
  K : ℕ
  samples : ℕ
  N : ℕ
  tt : TTArr
  tokens : List ℕ
  docid : List ℕ
  topic_seed : Seed
  alpha : ℚ
  rng : ℕ
  sampled_topics : Option (List (List ℕ))
  dt : Option (List (List (List ℚ)))
deriving DecidableEq

namespace QueryGibbs

/-- `QueryGibbs.__init__(docs, token_key, tt)` (gibbs.py lines 328–366):
asserts `len(token_key) == tt.shape[0]` first (`none` models the
assertion failure), then silently drops every token not in the training
vocabulary before encoding.  `50/self.K` is a Python 2 integer floor
division. -/
def init (docs : List (List String)) (token_key : List String)
    (tt : TTArr) (rng0 : ℕ) : Option QueryGibbs :=
  if token_key.length = tt.V then
    let kept := docs.map (fun d => d.filter (fun t => t ∈ token_key))
    let tokens := kept.flatten.map (fun t => token_key.indexOf t)
    let p := randInts tokens.length tt.K rng0
    some
      { docs := kept
        D := kept.length
        V := tt.V
        K := tt.K
        samples := tt.slices.length
        N := tokens.length
        tt := tt
        tokens := tokens
        docid := LDAGibbs.docidOf kept
        topic_seed := Seed.oneD p.1
        alpha := ((50 / tt.K : ℕ) : ℚ)
        rng := p.2
        sampled_topics := none
        dt := none }
  else none

/-- `QueryGibbs.set_priors` (gibbs.py lines 368–376): asserts
`type(alpha) == float`. -/
def set_priors (q : QueryGibbs) (alpha : PyNum) : Option QueryGibbs :=
  match alpha with
  | PyNum.pyFloat a => some { q with alpha := a }
  | _ => none

/-- `QueryGibbs.set_seed` (gibbs.py lines 378–388): asserts shape
`(samples, N)` and installs the 2-D seed. -/
def set_seed (q : QueryGibbs) (M : List (List ℕ)) : Option QueryGibbs :=
  if M.length = q.samples ∧ ∀ r ∈ M, r.length = q.N then
    some { q with topic_seed := Seed.twoD M }
  else none

/-- The query-chain state: assignment vector, the mutable document-topic
counts (topic-term counts stay fixed, spec §4.5), and random state. -/
structure QChain where
  assign : List ℕ
  ndk : List (List ℕ)
  rng : ℕ
deriving DecidableEq

/-- Modelled from the spec: one token update of the fixed-topic query
sampler (spec §4.5): as §4.1 but the weight uses the supplied slice
`phi[w][k]` in place of the topic-term ratio, and only `n_dk` is
mutated. -/
def qTokenUpdate (K : ℕ) (alpha : ℚ) (docid tokens : List ℕ)
    (phi : List (List ℚ)) (st : QChain) (i : ℕ) : QChain :=
  let d := docid.getD i 0
  let w := tokens.getD i 0
  let z := st.assign.getD i 0
  let ndk1 := bump2 st.ndk d z (· - 1)
  let wts := (List.range K).map (fun k =>
    (((ndk1.getD d []).getD k 0 : ℚ) + alpha) *
      ((phi.getD w []).getD k 0))
  let p := rngStep st.rng
  let tgt := ((p.1 % 65536 : ℕ) : ℚ) / 65536 * (wts.foldl (· + ·) 0)
  let z2 := pickIdx wts tgt
  { assign := st.assign.set i z2
    ndk := bump2 ndk1 d z2 (· + 1)
    rng := p.2 }

/-- One full query iteration: a pass over all `N` token positions. -/
def qSweep (K N : ℕ) (alpha : ℚ) (docid tokens : List ℕ)
    (phi : List (List ℚ)) (st : QChain) : QChain :=
  (List.range N).foldl (qTokenUpdate K alpha docid tokens phi) st

/-- `n` consecutive query iterations. -/
def qSweepN (K N : ℕ) (alpha : ℚ) (docid tokens : List ℕ)
    (phi : List (List ℚ)) : ℕ → QChain → QChain
  | 0, st => st
  | n + 1, st =>
      qSweepN K N alpha docid tokens phi n
        (qSweep K N alpha docid tokens phi st)

/-- Modelled from the spec: `samplers_lda.sampler_query` (the compiled
sampler module is not under the repository snapshot).  Its contract takes
a 1-D length-`N` seed assignment (spec §4.1/§4.5); a 2-D argument does
not match that contract and is modelled as an error.  Runs
`query_samples` fixed-topic iterations and returns the final assignment
with the advanced random state. -/
def sampler_query (docid tokens : List ℕ) (seed : Seed)
    (phi : List (List ℚ)) (N K D : ℕ) (alpha : ℚ)
    (query_samples : ℕ) (rng : ℕ) : Option (List ℕ × ℕ) :=
  match seed with
  | Seed.twoD _ => none
  | Seed.oneD a =>
      let st0 : QChain := ⟨a, ndkOf docid a D K, rng⟩
      let stf := qSweepN K N alpha docid tokens phi query_samples st0
      some (stf.assign, stf.rng)

/-- The seed argument the `query` loop passes to `sampler_query` at
snapshot `s` (gibbs.py lines 402–409): the expression at the call site is
`self.topic_seed`, not indexed by the loop variable. -/
def querySeedArg (q : QueryGibbs) (_s : ℕ) : Seed :=
  q.topic_seed

/-- The per-snapshot loop of `QueryGibbs.query`, threading the random
state through consecutive `sampler_query` calls. -/
def queryRows (q : QueryGibbs) (query_samples : ℕ) :
    List ℕ → ℕ → Option (List (List ℕ) × ℕ)
  | [], r => some ([], r)
  | s :: rest, r =>
      (sampler_query q.docid q.tokens (querySeedArg q s)
        (q.tt.slices.getD s []) q.N q.K q.D q.alpha query_samples r).bind
        (fun p => (queryRows q query_samples rest p.2).map
          (fun pr => (p.1 :: pr.1, pr.2)))

/-- `QueryGibbs.query(query_samples)` (gibbs.py lines 390–418): one
fixed-topic inference per training snapshot `s`, each against slice
`tt[:, :, s]`, filling `sampled_topics` (shape `samples × N`) and then
`dt` (one `D × K` slice per snapshot). -/
def query (q : QueryGibbs) (query_samples : ℕ) : Option QueryGibbs :=
  match queryRows q query_samples (List.range q.samples) q.rng with
  | none => none
  | some (rows, rf) =>
      let dts := rows.map (fun a => dt_comp1 q.docid a q.K q.D q.alpha)
      some { q with sampled_topics := some rows, dt := some dts, rng := rf }

end QueryGibbs

/-- The archive self-consistency check: the stored counter `self.samples`
agrees with the sample-axis length of the assignment archive and of both
derived matrices. -/
def Archive.ok (ar : Archive) : Bool :=
  ar.samples == ar.sampled_topics.length &&
    (ar.samples == ar.tt.length) && (ar.samples == ar.dt.length)

/-- Archive invariant of an `LDAGibbs` state (vacuous before the first
`sample`/`set_sampled_topics`). -/
def invB (m : LDAGibbs) : Bool :=
  match m.archive with
  | none => true
  | some ar => ar.ok

/-- Archive invariant of a `QueryGibbs` state: once `query` has filled
`sampled_topics` and `dt`, their sample-axis lengths agree with the
stored `samples`. -/
def QueryGibbs.okB (q : QueryGibbs) : Bool :=
  (match q.sampled_topics with
    | none => true
    | some rows => rows.length == q.samples) &&
  (match q.dt with
    | none => true
    | some d => d.length == q.samples)

/-- Resolution of a possibly negative numpy index that is in range. -/
def resolveIdx (len : ℕ) (i : ℤ) : ℕ :=
  if i < 0 then ((len : ℤ) + i).toNat else i.toNat

/-- Length of a 1-D seed; `none` for a 2-D seed. -/
def seedLen : Seed → Option ℕ
  | Seed.oneD v => some v.length
  | Seed.twoD _ => none

/-- An empty archive, used only as a default for projections. -/
def arEmpty : Archive := ⟨[], [], [], 0⟩

/-- A two-document example corpus: vocabulary `{a, b, c}` (`V = 3`),
token stream length `N = 5`. -/
def exCorpus : List (List String) := [["a", "b", "a"], ["b", "c"]]

/-- Example trained model over `exCorpus` with `K = 2`. -/
def mW : LDAGibbs := LDAGibbs.init exCorpus 2 5

/-- `mW` after one fresh sampling call retaining one snapshot. -/
def mW1 : LDAGibbs := mW.sample 1 1 1 false

/-- The archive of `mW1`. -/
def arW1 : Archive := mW1.archive.getD arEmpty

/-- A model whose archive holds two explicitly assigned snapshots. -/
def m0 : LDAGibbs :=
  (LDAGibbs.init [["a"], ["b"]] 2 0).set_sampled_topics
    (Sum.inr [[0, 1], [1, 0]])

/-- The archive of `m0` (two snapshots). -/
def arM0 : Archive := m0.archive.getD arEmpty

/-- `m0` after keeping only the last snapshot. -/
def m0kept : LDAGibbs := (m0.samples_keep (Sum.inl 1)).getD m0

/-- A default query state, used only as a default for projections. -/
def qDefault : QueryGibbs :=
  { docs := [], D := 0, V := 0, K := 0, samples := 0, N := 0,
    tt := ⟨0, 0, []⟩, tokens := [], docid := [],
    topic_seed := Seed.oneD [], alpha := 0, rng := 0,
    sampled_topics := none, dt := none }

/-- An example trained topic-term array: `V = 2`, `K = 2`, one snapshot. -/
def ttW : TTArr := ⟨2, 2, [[[1, 0], [0, 1]]]⟩

/-- Example query model: the token `x` is out of vocabulary and dropped,
leaving `N = 3` retained tokens. -/
def qW : QueryGibbs :=
  (QueryGibbs.init [["a", "x", "b"], ["b"]] ["a", "b"] ttW 3).getD qDefault

/-- `qW` after a query of two iterations per snapshot. -/
def qW1 : QueryGibbs := (qW.query 2).getD qDefault

/-- The default 1-D topic seed of `qW`. -/
def vW : List ℕ :=
  match qW.topic_seed with
  | Seed.oneD v => v
  | Seed.twoD _ => []

/-- `qW` after installing a 2-D `samples × N` seed via `set_seed`. -/
def qWseeded : QueryGibbs := (qW.set_seed [[0, 0, 0]]).getD qDefault

theorem randInts_fst_length : ∀ (n k r : ℕ), (randInts n k r).1.length = n
  | 0, _, _ => rfl
  | n + 1, k, r => by
      simp [randInts, randInts_fst_length n k]

theorem retain_fst_length (V K N : ℕ) (a b : ℚ) (docid tokens : List ℕ)
    (th : ℕ) : ∀ (s : ℕ) (st : Chain),
    (retain V K N a b docid tokens th s st).1.length = s
  | 0, _ => rfl
  | s + 1, st => by
      simp [retain, retain_fst_length V K N a b docid tokens th s]

theorem sampler_fst_length (docid tokens seed : List ℕ) (N V K D : ℕ)
    (a b : ℚ) (burnin th s rng : ℕ) :
    (sampler docid tokens seed N V K D a b burnin th s rng).1.length = s := by
  simp [sampler, retain_fst_length]

theorem tt_comp_length (m : LDAGibbs) (rows : List (List ℕ)) :
    (m.tt_comp rows).length = rows.length := by
  simp [LDAGibbs.tt_comp]

theorem dt_comp_length (m : LDAGibbs) (rows : List (List ℕ)) :
    (m.dt_comp rows).length = rows.length := by
  simp [LDAGibbs.dt_comp]

theorem npTakeIdx_eq_some (len : ℕ) (i : ℤ) (h1 : -(len : ℤ) ≤ i)
    (h2 : i < (len : ℤ)) :
    LDAGibbs.npTakeIdx len i = some (resolveIdx len i) := by
  rcases lt_or_le i 0 with h0 | h0
  · have hc : ¬(0 ≤ i ∧ i < (len : ℤ)) := by omega
    have hc2 : -(len : ℤ) ≤ i ∧ i < 0 := ⟨h1, h0⟩
    simp [LDAGibbs.npTakeIdx, resolveIdx, hc, hc2, h0]
  · have hc : 0 ≤ i ∧ i < (len : ℤ) := ⟨h0, h2⟩
    have h0n : ¬i < 0 := by omega
    simp [LDAGibbs.npTakeIdx, resolveIdx, hc, h0n]

theorem resolveIdx_lt (len : ℕ) (i : ℤ) (h1 : -(len : ℤ) ≤ i)
    (h2 : i < (len : ℤ)) : resolveIdx len i < len := by
  unfold resolveIdx
  split <;> omega

theorem npTake_length {α : Type} (l : List α) :
    ∀ (idxs : List ℤ) (r : List α),
    LDAGibbs.npTake l idxs = some r → r.length = idxs.length
  | [], r, h => by
      simp [LDAGibbs.npTake] at h
      simp [← h]
  | i :: rest, r, h => by
      unfold LDAGibbs.npTake at h
      cases hx : (LDAGibbs.npTakeIdx l.length i).bind (fun j => l.get? j) with
      | none => rw [hx] at h; cases LDAGibbs.npTake l rest <;> simp at h
      | some x =>
          rw [hx] at h
          cases hr : LDAGibbs.npTake l rest with
          | none => rw [hr] at h; simp at h
          | some xs =>
              rw [hr] at h
              simp at h
              have := npTake_length l rest xs hr
              simp [← h, this]

theorem npTake_valid {α : Type} [Inhabited α] (l : List α) :
    ∀ idxs : List ℤ,
    (∀ i ∈ idxs, -(l.length : ℤ) ≤ i ∧ i < (l.length : ℤ)) →
    LDAGibbs.npTake l idxs =
      some (idxs.map (fun i => l.getD (resolveIdx l.length i) default))
  | [], _ => rfl
  | i :: rest, h => by
      have hi := h i (List.mem_cons_self i rest)
      have hr := npTake_valid l rest (fun j hj => h j (List.mem_cons_of_mem i hj))
      have h1 : LDAGibbs.npTakeIdx l.length i = some (resolveIdx l.length i) :=
        npTakeIdx_eq_some l.length i hi.1 hi.2
      have hlt : resolveIdx l.length i < l.length :=
        resolveIdx_lt l.length i hi.1 hi.2
      have h2 : l.get? (resolveIdx l.length i) =
          some (l.getD (resolveIdx l.length i) default) := by
        rw [List.getD_eq_getElem?_getD, List.get?_eq_getElem?,
          List.getElem?_eq_getElem hlt]
        rfl
      unfold LDAGibbs.npTake
      rw [h1, Option.some_bind, h2, hr]
      simp

theorem npTake_invalid {α : Type} (l : List α) :
    ∀ (idxs : List ℤ) (i : ℤ), i ∈ idxs →
    ((l.length : ℤ) ≤ i ∨ i < -(l.length : ℤ)) →
    LDAGibbs.npTake l idxs = none
  | [], i, hmem, _ => by cases hmem
  | j :: rest, i, hmem, hbad => by
      rcases List.mem_cons.mp hmem with heq | htail
      · subst heq
        have hnone : LDAGibbs.npTakeIdx l.length i = none := by
          have hc : ¬(0 ≤ i ∧ i < (l.length : ℤ)) := by omega
          have hc2 : ¬(-(l.length : ℤ) ≤ i ∧ i < 0) := by omega
          simp [LDAGibbs.npTakeIdx, hc, hc2]
        unfold LDAGibbs.npTake
        rw [hnone, Option.none_bind]
      · have hr := npTake_invalid l rest i htail hbad
        unfold LDAGibbs.npTake
        rw [hr]
        cases (LDAGibbs.npTakeIdx l.length j).bind (fun k => l.get? k) <;> rfl

theorem getD_range_drop {α : Type} [Inhabited α] :
    ∀ (l : List α) (k : ℕ),
    ((List.range l.length).drop k).map (fun j => l.getD j default) = l.drop k
  | [], k => by simp
  | x :: t, 0 => by
      simp only [List.length_cons, List.range_succ_eq_map, List.drop_zero,
        List.map_cons, List.map_map]
      have : (fun j => (x :: t).getD j default) ∘ Nat.succ =
          fun j => t.getD j default := by
        funext j
        simp [List.getD_cons_succ]
      rw [this]
      have ih := getD_range_drop t 0
      simp only [List.drop_zero] at ih
      rw [ih]
      simp
  | x :: t, k + 1 => by
      simp only [List.length_cons, List.range_succ_eq_map, List.drop_succ_cons]
      rw [← List.map_drop, List.map_map]
      have : (fun j => (x :: t).getD j default) ∘ Nat.succ =
          fun j => t.getD j default := by
        funext j
        simp [List.getD_cons_succ]
      rw [this, getD_range_drop t k]

theorem npTake_range_drop {α : Type} [Inhabited α] (l : List α) (k : ℕ) :
    LDAGibbs.npTake l (((List.range l.length).drop k).map Int.ofNat) =
      some (l.drop k) := by
  have hvalid : ∀ i ∈ ((List.range l.length).drop k).map Int.ofNat,
      -(l.length : ℤ) ≤ i ∧ i < (l.length : ℤ) := by
    intro i hi
    rcases List.mem_map.mp hi with ⟨j, hj, rfl⟩
    have : j < l.length := List.mem_range.mp (List.mem_of_mem_drop hj)
    rw [Int.ofNat_eq_natCast]
    omega
  rw [npTake_valid l _ hvalid, List.map_map]
  have : (fun i => l.getD (resolveIdx l.length i) default) ∘ Int.ofNat =
      fun j => l.getD j default := by
    funext j
    have : resolveIdx l.length (Int.ofNat j) = j := by
      unfold resolveIdx
      rw [Int.ofNat_eq_natCast]
      split <;> omega
    rw [Function.comp_apply, this]
  rw [this, getD_range_drop]

theorem queryRows_length (q : QueryGibbs) (n : ℕ) :
    ∀ (ss : List ℕ) (r : ℕ) (rows : List (List ℕ)) (rf : ℕ),
    QueryGibbs.queryRows q n ss r = some (rows, rf) → rows.length = ss.length
  | [], r, rows, rf, h => by
      simp [QueryGibbs.queryRows] at h
      simp [← h.1]
  | s :: rest, r, rows, rf, h => by
      unfold QueryGibbs.queryRows at h
      cases hx : QueryGibbs.sampler_query q.docid q.tokens
          (QueryGibbs.querySeedArg q s) (q.tt.slices.getD s []) q.N q.K q.D
          q.alpha n r with
      | none => rw [hx] at h; simp at h
      | some p =>
          rw [hx, Option.some_bind] at h
          cases hr : QueryGibbs.queryRows q n rest p.2 with
          | none => rw [hr] at h; simp at h
          | some pr =>
              rw [hr] at h
              have hlen := queryRows_length q n rest p.2 pr.1 pr.2 (by
                rw [hr])
              have hrows : rows = p.1 :: pr.1 := by
                have := congrArg (fun o => Option.map Prod.fst o) h
                simpa using this.symm
              simp [hrows, hlen]

theorem queryRows_oneD_some (q : QueryGibbs) (n : ℕ) (v : List ℕ)
    (hseed : q.topic_seed = Seed.oneD v) :
    ∀ (ss : List ℕ) (r : ℕ), (QueryGibbs.queryRows q n ss r).isSome = true
  | [], r => rfl
  | s :: rest, r => by
      have harg : QueryGibbs.querySeedArg q s = Seed.oneD v := by
        simp [QueryGibbs.querySeedArg, hseed]
      have hrest : ∀ r2 : ℕ, ∃ pr, QueryGibbs.queryRows q n rest r2 = some pr :=
        fun r2 => Option.isSome_iff_exists.mp
          (queryRows_oneD_some q n v hseed rest r2)
      unfold QueryGibbs.queryRows
      rw [harg]
      simp only [QueryGibbs.sampler_query, Option.some_bind]
      obtain ⟨pr, hpr⟩ := hrest _
      rw [hpr]
      simp

theorem keepIdx_inv (m : LDAGibbs) (ar : Archive) (idx : List ℤ)
    (m2 : LDAGibbs) (h : LDAGibbs.keepIdx m ar idx = some m2) :
    invB m2 = true := by
  unfold LDAGibbs.keepIdx at h
  cases h1 : LDAGibbs.npTake ar.sampled_topics idx with
  | none => rw [h1] at h; simp at h
  | some st =>
      cases h2 : LDAGibbs.npTake ar.tt idx with
      | none => rw [h1, h2] at h; simp at h
      | some tt2 =>
          cases h3 : LDAGibbs.npTake ar.dt idx with
          | none => rw [h1, h2, h3] at h; simp at h
          | some dt2 =>
              rw [h1, h2, h3] at h
              simp at h
              rw [← h]
              simp [invB, Archive.ok, npTake_length ar.sampled_topics idx st h1,
                npTake_length ar.tt idx tt2 h2, npTake_length ar.dt idx dt2 h3]

theorem keepIdx_valid (m : LDAGibbs) (ar : Archive) (l : List ℤ)
    (hok : ar.ok = true)
    (hv : ∀ i ∈ l, -(ar.samples : ℤ) ≤ i ∧ i < (ar.samples : ℤ)) :
    LDAGibbs.keepIdx m ar l =
      some { m with
        archive := some ⟨l.map
            (fun i => ar.sampled_topics.getD (resolveIdx ar.samples i) []),
          l.map (fun i => ar.tt.getD (resolveIdx ar.samples i) []),
          l.map (fun i => ar.dt.getD (resolveIdx ar.samples i) []),
          l.length⟩ } := by
  simp only [Archive.ok, Bool.and_eq_true, beq_iff_eq] at hok
  obtain ⟨⟨e1, e2⟩, e3⟩ := hok
  have t1 := npTake_valid ar.sampled_topics l (by rw [← e1]; exact hv)
  have t2 := npTake_valid ar.tt l (by rw [← e2]; exact hv)
  have t3 := npTake_valid ar.dt l (by rw [← e3]; exact hv)
  rw [← e1] at t1
  rw [← e2] at t2
  rw [← e3] at t3
  unfold LDAGibbs.keepIdx
  rw [t1, t2, t3]
  rfl

theorem keepIdx_range_drop (m : LDAGibbs) (ar : Archive) (k : ℕ)
    (hok : ar.ok = true) :
    LDAGibbs.keepIdx m ar
        (((List.range ar.samples).drop k).map Int.ofNat) =
      some { m with
        archive := some ⟨ar.sampled_topics.drop k, ar.tt.drop k,
          ar.dt.drop k, ar.samples - k⟩ } := by
  simp only [Archive.ok, Bool.and_eq_true, beq_iff_eq] at hok
  obtain ⟨⟨e1, e2⟩, e3⟩ := hok
  have t1 := npTake_range_drop ar.sampled_topics k
  have t2 := npTake_range_drop ar.tt k
  have t3 := npTake_range_drop ar.dt k
  rw [← e1] at t1
  rw [← e2] at t2
  rw [← e3] at t3
  unfold LDAGibbs.keepIdx
  rw [t1, t2, t3]
  simp

theorem keepIdx_invalid (m : LDAGibbs) (ar : Archive) (l : List ℤ) (i : ℤ)
    (hok : ar.ok = true) (hmem : i ∈ l)
    (hbad : (ar.samples : ℤ) ≤ i ∨ i < -(ar.samples : ℤ)) :
    LDAGibbs.keepIdx m ar l = none := by
  simp only [Archive.ok, Bool.and_eq_true, beq_iff_eq] at hok
  obtain ⟨⟨e1, _⟩, _⟩ := hok
  have t1 := npTake_invalid ar.sampled_topics l i hmem (by rw [← e1]; exact hbad)
  unfold LDAGibbs.keepIdx
  rw [t1]

/-- Unfolding of `LDAGibbs.sample` in the fresh-chain case: no archive
yet, or `append=False`. -/
theorem sample_fresh_def (m : LDAGibbs) (b t s : ℕ) (ap : Bool)
    (h : m.archive = none ∨ ap = false) :
    m.sample b t s ap =
      { m with
        rng := (sampler m.docid m.tokens m.topic_seed m.N m.V m.K m.D
          m.alpha m.beta b t s m.rng).2
        archive := some
          ⟨(sampler m.docid m.tokens m.topic_seed m.N m.V m.K m.D
              m.alpha m.beta b t s m.rng).1,
            m.tt_comp (sampler m.docid m.tokens m.topic_seed m.N m.V m.K m.D
              m.alpha m.beta b t s m.rng).1,
            m.dt_comp (sampler m.docid m.tokens m.topic_seed m.N m.V m.K m.D
              m.alpha m.beta b t s m.rng).1,
            s⟩ } := by
  rcases h with h | h
  · cases ap <;> simp [LDAGibbs.sample, h]
  · subst h
    cases h2 : m.archive <;> simp [LDAGibbs.sample, h2]

/-- Unfolding of `LDAGibbs.sample` in the chain-extension case: an archive
exists and `append=True`; the chain resumes from archive row
`self.samples - 1` and everything is concatenated on. -/
theorem sample_append_def (m : LDAGibbs) (ar : Archive) (b t s : ℕ)
    (h : m.archive = some ar) :
    m.sample b t s true =
      { m with
        rng := (sampler m.docid m.tokens
          (ar.sampled_topics.getD (ar.samples - 1) []) m.N m.V m.K m.D
          m.alpha m.beta b t s m.rng).2
        archive := some
          ⟨ar.sampled_topics ++ (sampler m.docid m.tokens
              (ar.sampled_topics.getD (ar.samples - 1) []) m.N m.V m.K m.D
              m.alpha m.beta b t s m.rng).1,
            ar.tt ++ m.tt_comp (sampler m.docid m.tokens
              (ar.sampled_topics.getD (ar.samples - 1) []) m.N m.V m.K m.D
              m.alpha m.beta b t s m.rng).1,
            ar.dt ++ m.dt_comp (sampler m.docid m.tokens
              (ar.sampled_topics.getD (ar.samples - 1) []) m.N m.V m.K m.D
              m.alpha m.beta b t s m.rng).1,
            ar.samples + s⟩ } := by
  simp [LDAGibbs.sample, h]

/-- C1: the claim states the default hyperparameters are the real scalars
`50/K` and `200/V`, strictly positive for all positive `K` and `V`.  Under
the code's Python 2 integer division the default `alpha` evaluates to `0`
at `K = 51` (not strictly positive), to `7 ≠ 50/7` at `K = 7`, the default
`beta` to `66 ≠ 200/3` at `V = 3`, and the query model's default `alpha`
to `0` at `K = 51`. -/
theorem C1_default_priors_floor_division :
    (LDAGibbs.init [["a"]] 51 0).alpha = 0
    ∧ ¬0 < (LDAGibbs.init [["a"]] 51 0).alpha
    ∧ (LDAGibbs.init [["a"]] 7 0).alpha = 7
    ∧ (7 : ℚ) ≠ 50 / 7
    ∧ (LDAGibbs.init [["a", "b", "c"]] 2 0).beta = 66
    ∧ (66 : ℚ) ≠ 200 / 3
    ∧ ((QueryGibbs.init [["a"]] ["a"] ⟨1, 51, []⟩ 0).map QueryGibbs.alpha) =
        some 0 := by
  refine ⟨by decide, by decide, by decide, by norm_num, by decide,
    by norm_num, by decide⟩

/-- C2 counterexample: `set_priors` accepts the non-positive floats
`alpha = beta = -1.0` (the assertion checks only the Python type), and the
chain then runs to completion with them, retaining one snapshot. -/
theorem C2_counterexample_negative_priors_accepted :
    (LDAGibbs.set_priors (LDAGibbs.init [["a"]] 2 0) (PyNum.pyFloat (-1))
        (PyNum.pyFloat (-1))).isSome = true
    ∧ (-1 : ℚ) ≤ 0
    ∧ ((LDAGibbs.set_priors (LDAGibbs.init [["a"]] 2 0) (PyNum.pyFloat (-1))
          (PyNum.pyFloat (-1))).map (fun m2 =>
            (m2.sample 1 1 1 false).archive.map
              (fun a => a.sampled_topics.length))) = some (some 1) := by
  refine ⟨by decide, by norm_num, by decide⟩

/-- C2 amended: `set_priors` validates only that both arguments are
Python floats; any float value — including non-positive ones — is
accepted and installed, and a subsequent `sample` call runs the chain
with it, retaining the requested number of snapshots. -/
theorem C2_amended_type_only_validation :
    (∀ (m : LDAGibbs) (a b : PyNum),
      (m.set_priors a b).isSome = (a.isFloat && b.isFloat))
    ∧ (∀ (m : LDAGibbs) (x y : ℚ),
      m.set_priors (PyNum.pyFloat x) (PyNum.pyFloat y) =
        some { m with alpha := x, beta := y })
    ∧ (∀ (m : LDAGibbs) (x y : ℚ) (b t s : ℕ),
      ((m.set_priors (PyNum.pyFloat x) (PyNum.pyFloat y)).map (fun m2 =>
        (m2.sample b t s false).archive.map
          (fun a => a.sampled_topics.length))) = some (some s)) := by
  refine ⟨?_, ?_, ?_⟩
  · intro m a b
    cases a <;> cases b <;> simp [LDAGibbs.set_priors, PyNum.isFloat]
  · intro m x y
    rfl
  · intro m x y b t s
    have h := sample_fresh_def { m with alpha := x, beta := y } b t s false
      (Or.inr rfl)
    simp [LDAGibbs.set_priors, h, sampler_fst_length]

/-- C3: with no archive (or `append=False`) `sample` starts a fresh chain
from the stored seed and the archive afterwards holds exactly `samples`
snapshots (counter included); with an archive of `S` snapshots and
`append=True` it resumes from archive row `S-1`, concatenates the new
snapshots on, and the archive afterwards holds exactly `S + samples`
snapshots. -/
theorem C3_sample_fresh_and_append :
    (∀ (m : LDAGibbs) (b t s : ℕ) (ap : Bool), m.archive = none ∨ ap = false →
      ((m.sample b t s ap).archive.map Archive.sampled_topics) =
        some (sampler m.docid m.tokens m.topic_seed m.N m.V m.K m.D m.alpha
          m.beta b t s m.rng).1
      ∧ ((m.sample b t s ap).archive.map
          (fun a => a.sampled_topics.length)) = some s
      ∧ ((m.sample b t s ap).archive.map Archive.samples) = some s)
    ∧ (∀ (m : LDAGibbs) (ar : Archive) (b t s : ℕ), m.archive = some ar →
      ((m.sample b t s true).archive.map Archive.sampled_topics) =
        some (ar.sampled_topics ++ (sampler m.docid m.tokens
          (ar.sampled_topics.getD (ar.samples - 1) []) m.N m.V m.K m.D
          m.alpha m.beta b t s m.rng).1)
      ∧ ((m.sample b t s true).archive.map
          (fun a => a.sampled_topics.length)) =
            some (ar.sampled_topics.length + s)
      ∧ ((m.sample b t s true).archive.map Archive.samples) =
          some (ar.samples + s)) := by
  constructor
  · intro m b t s ap h
    rw [sample_fresh_def m b t s ap h]
    exact ⟨rfl, by simp [sampler_fst_length], rfl⟩
  · intro m ar b t s h
    rw [sample_append_def m ar b t s h]
    exact ⟨rfl, by simp [sampler_fst_length], rfl⟩

/-- C4: extending the chain with `append=True` leaves the first
`self.samples` snapshots of the assignment archive and of both derived
matrices exactly unchanged. -/
theorem C4_append_preserves_archive_prefix :
    ∀ (m : LDAGibbs) (ar : Archive) (b t s : ℕ), m.archive = some ar →
    ar.ok = true →
    ((m.sample b t s true).archive.map
        (fun a => a.sampled_topics.take ar.samples)) = some ar.sampled_topics
    ∧ ((m.sample b t s true).archive.map
        (fun a => a.tt.take ar.samples)) = some ar.tt
    ∧ ((m.sample b t s true).archive.map
        (fun a => a.dt.take ar.samples)) = some ar.dt := by
  intro m ar b t s h hok
  simp only [Archive.ok, Bool.and_eq_true, beq_iff_eq] at hok
  obtain ⟨⟨e1, e2⟩, e3⟩ := hok
  rw [sample_append_def m ar b t s h]
  refine ⟨?_, ?_, ?_⟩
  · simp only [Option.map_some']
    rw [e1, List.take_left]
  · simp only [Option.map_some']
    rw [e2, List.take_left]
  · simp only [Option.map_some']
    rw [e3, List.take_left]

/-- C5 counterexample: with an archive of `S = 2` snapshots,
`samples_keep(3)` is not rejected — it silently retains all 2 snapshots —
and `samples_keep([-1])` (a position outside `0..S-1`) is accepted,
resolving to the last snapshot. -/
theorem C5_counterexample_out_of_range_indices :
    (m0.samples_keep (Sum.inl 3)).isSome = true
    ∧ ((m0.samples_keep (Sum.inl 3)).map
        (fun m2 => m2.archive.map Archive.samples)) = some (some 2)
    ∧ (m0.samples_keep (Sum.inr [-1])).isSome = true := by
  refine ⟨by decide, by decide, by decide⟩

/-- C5 amended: `samples_keep(n)` for an integer `n ≥ 1` retains the last
`min(n, S)` snapshots and never errors — a count exceeding `S` silently
retains all of them; `samples_keep(list)` retains exactly the listed
positions in order, a negative position in `-S..-1` counting from the
end; only a list position `≥ S` or `< -S` is rejected. -/
theorem C5_amended_samples_keep :
    (∀ (m : LDAGibbs) (ar : Archive) (n : ℤ), m.archive = some ar →
      ar.ok = true → 1 ≤ n →
      m.samples_keep (Sum.inl n) =
        some { m with
          archive := some ⟨ar.sampled_topics.drop (ar.samples - n.toNat),
            ar.tt.drop (ar.samples - n.toNat),
            ar.dt.drop (ar.samples - n.toNat),
            ar.samples - (ar.samples - n.toNat)⟩ })
    ∧ (∀ (m : LDAGibbs) (ar : Archive) (l : List ℤ), m.archive = some ar →
      ar.ok = true →
      (∀ i ∈ l, -(ar.samples : ℤ) ≤ i ∧ i < (ar.samples : ℤ)) →
      m.samples_keep (Sum.inr l) =
        some { m with
          archive := some ⟨l.map
              (fun i => ar.sampled_topics.getD (resolveIdx ar.samples i) []),
            l.map (fun i => ar.tt.getD (resolveIdx ar.samples i) []),
            l.map (fun i => ar.dt.getD (resolveIdx ar.samples i) []),
            l.length⟩ })
    ∧ (∀ (m : LDAGibbs) (ar : Archive) (l : List ℤ) (i : ℤ),
      m.archive = some ar → ar.ok = true → i ∈ l →
      ((ar.samples : ℤ) ≤ i ∨ i < -(ar.samples : ℤ)) →
      m.samples_keep (Sum.inr l) = none) := by
  refine ⟨?_, ?_, ?_⟩
  · intro m ar n hm hok hn
    have hs : LDAGibbs.pySliceFrom (-n) (List.range ar.samples) =
        (List.range ar.samples).drop (ar.samples - n.toNat) := by
      unfold LDAGibbs.pySliceFrom
      have hneg : (-n) < 0 := by omega
      rw [if_pos hneg, List.length_range]
      congr 1
      omega
    simp only [LDAGibbs.samples_keep, hm, hs]
    rw [keepIdx_range_drop m ar (ar.samples - n.toNat) hok]
  · intro m ar l hm hok hv
    simp only [LDAGibbs.samples_keep, hm]
    rw [keepIdx_valid m ar l hok hv]
  · intro m ar l i hm hok hmem hbad
    simp only [LDAGibbs.samples_keep, hm]
    rw [keepIdx_invalid m ar l i hok hmem hbad]

/-- C6: every completed archive-touching operation — `sample` (both
branches), a successful `samples_keep`, `set_sampled_topics`, and a
successful `query` — leaves the stored sample count equal to the
sample-axis length of the assignment archive and of both derived
matrices. -/
theorem C6_sample_count_matches_archive :
    (∀ (m : LDAGibbs) (b t s : ℕ) (ap : Bool), invB m = true →
      invB (m.sample b t s ap) = true)
    ∧ (∀ (m : LDAGibbs) (i : ℤ ⊕ List ℤ) (m2 : LDAGibbs),
      m.samples_keep i = some m2 → invB m2 = true)
    ∧ (∀ (m : LDAGibbs) (inp : List ℕ ⊕ List (List ℕ)),
      invB (m.set_sampled_topics inp) = true)
    ∧ (∀ (q : QueryGibbs) (n : ℕ) (q2 : QueryGibbs),
      QueryGibbs.query q n = some q2 → QueryGibbs.okB q2 = true) := by
  refine ⟨?_, ?_, ?_, ?_⟩
  · intro m b t s ap h
    cases harch : m.archive with
    | none =>
        rw [sample_fresh_def m b t s ap (Or.inl harch)]
        simp [invB, Archive.ok, sampler_fst_length, tt_comp_length,
          dt_comp_length]
    | some ar =>
        cases ap with
        | false =>
            rw [sample_fresh_def m b t s false (Or.inr rfl)]
            simp [invB, Archive.ok, sampler_fst_length, tt_comp_length,
              dt_comp_length]
        | true =>
            rw [sample_append_def m ar b t s harch]
            rw [invB, harch] at h
            simp only [Archive.ok, Bool.and_eq_true, beq_iff_eq] at h
            obtain ⟨⟨e1, e2⟩, e3⟩ := h
            simp [invB, Archive.ok, sampler_fst_length, tt_comp_length,
              dt_comp_length, e1, e2, e3]
            omega
  · intro m i m2 h
    unfold LDAGibbs.samples_keep at h
    cases harch : m.archive with
    | none => rw [harch] at h; simp at h
    | some ar =>
        rw [harch] at h
        cases i with
        | inl n => exact keepIdx_inv m ar _ m2 h
        | inr l => exact keepIdx_inv m ar l m2 h
  · intro m inp
    unfold LDAGibbs.set_sampled_topics
    simp [invB, Archive.ok, tt_comp_length, dt_comp_length]
  · intro q n q2 h
    unfold QueryGibbs.query at h
    cases hq : QueryGibbs.queryRows q n (List.range q.samples) q.rng with
    | none => rw [hq] at h; simp at h
    | some p =>
        rw [hq] at h
        simp at h
        have hlen := queryRows_length q n (List.range q.samples) q.rng
          p.1 p.2 (by rw [hq])
        rw [List.length_range] at hlen
        rw [← h]
        simp [QueryGibbs.okB, hlen]

/-- C7: when building a query model, the vocabulary-size check
`len(token_key) == tt.shape[0]` is the only way construction fails;
out-of-vocabulary tokens are silently dropped, so every retained token of
a successfully built model is in the supplied vocabulary (and every
encoded index is below the vocabulary size). -/
theorem C7_query_vocab_filter_and_check :
    (∀ (docs : List (List String)) (key : List String) (tt : TTArr) (r : ℕ),
      QueryGibbs.init docs key tt r = none ↔ key.length ≠ tt.V)
    ∧ (∀ (docs : List (List String)) (key : List String) (tt : TTArr)
        (r : ℕ) (q : QueryGibbs), QueryGibbs.init docs key tt r = some q →
      (∀ d ∈ q.docs, ∀ w ∈ d, w ∈ key)
      ∧ (∀ ix ∈ q.tokens, ix < key.length)) := by
  constructor
  · intro docs key tt r
    by_cases hc : key.length = tt.V <;> simp [QueryGibbs.init, hc]
  · intro docs key tt r q h
    by_cases hc : key.length = tt.V
    · rw [QueryGibbs.init, if_pos hc] at h
      simp only [Option.some.injEq] at h
      constructor
      · intro d hd w hw
        rw [← h] at hd
        simp only [List.mem_map] at hd
        obtain ⟨d0, _, rfl⟩ := hd
        exact of_decide_eq_true (List.mem_filter.mp hw).2
      · intro ix hix
        rw [← h] at hix
        simp only [List.mem_map] at hix
        obtain ⟨w, hw, rfl⟩ := hix
        have hwkey : w ∈ key := by
          rcases List.mem_flatten.mp hw with ⟨d, hd, hwd⟩
          rcases List.mem_map.mp hd with ⟨d0, _, rfl⟩
          have := (List.mem_filter.mp hwd).2
          simpa using this
        exact List.indexOf_lt_length.mpr hwkey
    · rw [QueryGibbs.init, if_neg hc] at h
      simp at h

/-- C8: for a query model with its (default) 1-D seed, `query` succeeds
and fills an assignment archive and a document-topic matrix whose sample
axis has length exactly the number of training snapshots; the supplied
topic-term array and the stored snapshot count are left unmodified, and
the document-topic slices are derived one-for-one from the per-snapshot
assignment rows. -/
theorem C8_query_per_snapshot_results :
    ∀ (q : QueryGibbs) (v : List ℕ) (n : ℕ), q.topic_seed = Seed.oneD v →
      (QueryGibbs.query q n).isSome = true
      ∧ ((QueryGibbs.query q n).map
          (fun q2 => q2.sampled_topics.map List.length)) =
            some (some q.samples)
      ∧ ((QueryGibbs.query q n).map (fun q2 => q2.dt.map List.length)) =
          some (some q.samples)
      ∧ ((QueryGibbs.query q n).map QueryGibbs.tt) = some q.tt
      ∧ ((QueryGibbs.query q n).map QueryGibbs.samples) = some q.samples
      ∧ ((QueryGibbs.query q n).map QueryGibbs.dt) =
          ((QueryGibbs.query q n).map (fun q2 => q2.sampled_topics.map
            (fun rows => rows.map
              (fun a => dt_comp1 q.docid a q.K q.D q.alpha)))) := by
  intro q v n hseed
  obtain ⟨p, hp⟩ := Option.isSome_iff_exists.mp
    (queryRows_oneD_some q n v hseed (List.range q.samples) q.rng)
  have hlen := queryRows_length q n (List.range q.samples) q.rng
    p.1 p.2 (by rw [hp])
  rw [List.length_range] at hlen
  unfold QueryGibbs.query
  rw [hp]
  refine ⟨rfl, ?_, ?_, rfl, rfl, rfl⟩
  · simp [hlen]
  · simp [hlen]

/-- C9: `sample` is a deterministic function of the corpus
representation, hyperparameters, seed assignment and random-source state:
two models agreeing on those fields produce identical assignment archives
from a fresh sampling call. -/
theorem C9_determinism_of_sample :
    ∀ (m1 m2 : LDAGibbs) (b t s : ℕ),
      m1.docid = m2.docid → m1.tokens = m2.tokens →
      m1.topic_seed = m2.topic_seed → m1.N = m2.N → m1.V = m2.V →
      m1.K = m2.K → m1.D = m2.D → m1.alpha = m2.alpha →
      m1.beta = m2.beta → m1.rng = m2.rng →
      ((m1.sample b t s false).archive.map Archive.sampled_topics) =
        ((m2.sample b t s false).archive.map Archive.sampled_topics) := by
  intro m1 m2 b t s h1 h2 h3 h4 h5 h6 h7 h8 h9 h10
  have g : ∀ m : LDAGibbs,
      ((m.sample b t s false).archive.map Archive.sampled_topics) =
        some (sampler m.docid m.tokens m.topic_seed m.N m.V m.K m.D
          m.alpha m.beta b t s m.rng).1 := by
    intro m
    rw [sample_fresh_def m b t s false (Or.inr rfl)]
    rfl
  rw [g m1, g m2, h1, h2, h3, h4, h5, h6, h7, h8, h9, h10]

/-- C10: after a 2-D `samples × N` seed is installed by `set_seed`, the
`query` loop passes the very same unsliced seed to the per-snapshot
sampler call for every snapshot `s` — never row `s` of the 2-D seed —
while the default seed built at construction is a single 1-D vector of
length `N`, and `set_seed` accepts exactly the `samples × N` shape. -/
theorem C10_query_seed_passed_unsliced :
    (∀ (q : QueryGibbs) (M : List (List ℕ)) (q2 : QueryGibbs),
      QueryGibbs.set_seed q M = some q2 →
      (∀ s1 s2 : ℕ,
        QueryGibbs.querySeedArg q2 s1 = QueryGibbs.querySeedArg q2 s2)
      ∧ (∀ s : ℕ, QueryGibbs.querySeedArg q2 s = Seed.twoD M)
      ∧ (∀ s : ℕ,
        QueryGibbs.querySeedArg q2 s ≠ Seed.oneD (M.getD s [])))
    ∧ (∀ (docs : List (List String)) (key : List String) (tt : TTArr)
        (r : ℕ) (q0 : QueryGibbs), QueryGibbs.init docs key tt r = some q0 →
      seedLen q0.topic_seed = some q0.N)
    ∧ (∀ (q : QueryGibbs) (M : List (List ℕ)),
      (QueryGibbs.set_seed q M).isSome = true ↔
        (M.length = q.samples ∧ ∀ row ∈ M, row.length = q.N)) := by
  refine ⟨?_, ?_, ?_⟩
  · intro q M q2 h
    unfold QueryGibbs.set_seed at h
    by_cases hc : M.length = q.samples ∧ ∀ row ∈ M, row.length = q.N
    · rw [if_pos hc] at h
      simp only [Option.some.injEq] at h
      rw [← h]
      exact ⟨fun s1 s2 => rfl, fun s => rfl, fun s => by
        simp [QueryGibbs.querySeedArg]⟩
    · rw [if_neg hc] at h
      simp at h
  · intro docs key tt r q0 h
    by_cases hc : key.length = tt.V
    · rw [QueryGibbs.init, if_pos hc] at h
      simp only [Option.some.injEq] at h
      rw [← h]
      simp [seedLen, randInts_fst_length]
    · rw [QueryGibbs.init, if_neg hc] at h
      simp at h
  · intro q M
    unfold QueryGibbs.set_seed
    by_cases hc : M.length = q.samples ∧ ∀ row ∈ M, row.length = q.N <;>
      simp [hc]

/-- Witness for C3 at a concrete corpus: a fresh call retains exactly one
snapshot and a subsequent append retains two more. -/
theorem C3_sample_fresh_and_append_witness :
    (mW.archive = none ∨ (true : Bool) = false)
    ∧ ((mW.sample 1 1 1 true).archive.map Archive.sampled_topics) =
        some (sampler mW.docid mW.tokens mW.topic_seed mW.N mW.V mW.K mW.D
          mW.alpha mW.beta 1 1 1 mW.rng).1
    ∧ ((mW.sample 1 1 1 true).archive.map
        (fun a => a.sampled_topics.length)) = some 1
    ∧ ((mW.sample 1 1 1 true).archive.map Archive.samples) = some 1
    ∧ mW1.archive = some arW1
    ∧ ((mW1.sample 0 1 2 true).archive.map Archive.sampled_topics) =
        some (arW1.sampled_topics ++ (sampler mW1.docid mW1.tokens
          (arW1.sampled_topics.getD (arW1.samples - 1) []) mW1.N mW1.V
          mW1.K mW1.D mW1.alpha mW1.beta 0 1 2 mW1.rng).1)
    ∧ ((mW1.sample 0 1 2 true).archive.map
        (fun a => a.sampled_topics.length)) =
          some (arW1.sampled_topics.length + 2)
    ∧ ((mW1.sample 0 1 2 true).archive.map Archive.samples) =
        some (arW1.samples + 2) := by
  have hfresh := C3_sample_fresh_and_append.1 mW 1 1 1 true (Or.inl rfl)
  have happ := C3_sample_fresh_and_append.2 mW1 arW1 0 1 2 rfl
  exact ⟨Or.inl rfl, hfresh.1, hfresh.2.1, hfresh.2.2, rfl, happ.1,
    happ.2.1, happ.2.2⟩

/-- Witness for C4 at a concrete one-snapshot archive. -/
theorem C4_append_preserves_archive_prefix_witness :
    mW1.archive = some arW1
    ∧ arW1.ok = true
    ∧ ((mW1.sample 2 1 1 true).archive.map
        (fun a => a.sampled_topics.take arW1.samples)) =
          some arW1.sampled_topics
    ∧ ((mW1.sample 2 1 1 true).archive.map
        (fun a => a.tt.take arW1.samples)) = some arW1.tt
    ∧ ((mW1.sample 2 1 1 true).archive.map
        (fun a => a.dt.take arW1.samples)) = some arW1.dt := by
  have h := C4_append_preserves_archive_prefix mW1 arW1 2 1 1 rfl (by decide)
  exact ⟨rfl, by decide, h.1, h.2.1, h.2.2⟩

/-- Witness for C5 at a concrete two-snapshot archive: an integer count,
a valid list, and an out-of-range list position. -/
theorem C5_amended_samples_keep_witness :
    m0.archive = some arM0
    ∧ arM0.ok = true
    ∧ (1 : ℤ) ≤ 2
    ∧ m0.samples_keep (Sum.inl 2) =
        some { m0 with
          archive := some ⟨arM0.sampled_topics.drop
              (arM0.samples - (2 : ℤ).toNat),
            arM0.tt.drop (arM0.samples - (2 : ℤ).toNat),
            arM0.dt.drop (arM0.samples - (2 : ℤ).toNat),
            arM0.samples - (arM0.samples - (2 : ℤ).toNat)⟩ }
    ∧ (∀ i ∈ [(0 : ℤ)], -(arM0.samples : ℤ) ≤ i ∧ i < (arM0.samples : ℤ))
    ∧ m0.samples_keep (Sum.inr [0]) =
        some { m0 with
          archive := some ⟨[(0 : ℤ)].map
              (fun i => arM0.sampled_topics.getD
                (resolveIdx arM0.samples i) []),
            [(0 : ℤ)].map
              (fun i => arM0.tt.getD (resolveIdx arM0.samples i) []),
            [(0 : ℤ)].map
              (fun i => arM0.dt.getD (resolveIdx arM0.samples i) []),
            [(0 : ℤ)].length⟩ }
    ∧ (2 : ℤ) ∈ [(2 : ℤ)]
    ∧ ((arM0.samples : ℤ) ≤ 2 ∨ (2 : ℤ) < -(arM0.samples : ℤ))
    ∧ m0.samples_keep (Sum.inr [2]) = none := by
  refine ⟨rfl, by decide, by decide,
    C5_amended_samples_keep.1 m0 arM0 2 rfl (by decide) (by decide),
    by decide,
    C5_amended_samples_keep.2.1 m0 arM0 [0] rfl (by decide) (by decide),
    by decide, by decide,
    C5_amended_samples_keep.2.2 m0 arM0 [2] 2 rfl (by decide) (by decide)
      (by decide)⟩

/-- Witness for C6: concrete instances for sampling, subsetting, direct
assignment and querying. -/
theorem C6_sample_count_matches_archive_witness :
    invB mW = true
    ∧ invB (mW.sample 1 1 1 false) = true
    ∧ m0.samples_keep (Sum.inl 1) = some m0kept
    ∧ invB m0kept = true
    ∧ invB (mW.set_sampled_topics (Sum.inr [[0, 0, 1, 1, 0]])) = true
    ∧ qW.query 2 = some qW1
    ∧ QueryGibbs.okB qW1 = true := by
  refine ⟨by decide,
    C6_sample_count_matches_archive.1 mW 1 1 1 false (by decide),
    rfl,
    C6_sample_count_matches_archive.2.1 m0 (Sum.inl 1) m0kept rfl,
    C6_sample_count_matches_archive.2.2.1 mW (Sum.inr [[0, 0, 1, 1, 0]]),
    rfl,
    C6_sample_count_matches_archive.2.2.2 qW 2 qW1 rfl⟩

/-- Witness for C7 at a concrete query construction with one
out-of-vocabulary token. -/
theorem C7_query_vocab_filter_and_check_witness :
    QueryGibbs.init [["a", "x", "b"], ["b"]] ["a", "b"] ttW 3 = some qW
    ∧ (∀ d ∈ qW.docs, ∀ w ∈ d, w ∈ ["a", "b"])
    ∧ (∀ ix ∈ qW.tokens, ix < (["a", "b"] : List String).length) := by
  have h := C7_query_vocab_filter_and_check.2 [["a", "x", "b"], ["b"]]
    ["a", "b"] ttW 3 qW rfl
  exact ⟨rfl, h.1, h.2⟩

/-- Witness for C8 at a concrete query model with its default 1-D seed. -/
theorem C8_query_per_snapshot_results_witness :
    qW.topic_seed = Seed.oneD vW
    ∧ (QueryGibbs.query qW 2).isSome = true
    ∧ ((QueryGibbs.query qW 2).map
        (fun q2 => q2.sampled_topics.map List.length)) =
          some (some qW.samples)
    ∧ ((QueryGibbs.query qW 2).map (fun q2 => q2.dt.map List.length)) =
        some (some qW.samples)
    ∧ ((QueryGibbs.query qW 2).map QueryGibbs.tt) = some qW.tt
    ∧ ((QueryGibbs.query qW 2).map QueryGibbs.samples) = some qW.samples
    ∧ ((QueryGibbs.query qW 2).map QueryGibbs.dt) =
        ((QueryGibbs.query qW 2).map (fun q2 => q2.sampled_topics.map
          (fun rows => rows.map
            (fun a => dt_comp1 qW.docid a qW.K qW.D qW.alpha)))) := by
  have h := C8_query_per_snapshot_results qW vW 2 rfl
  exact ⟨rfl, h.1, h.2.1, h.2.2.1, h.2.2.2.1, h.2.2.2.2.1, h.2.2.2.2.2⟩

/-- Witness for C9: two identical concrete runs agree. -/
theorem C9_determinism_of_sample_witness :
    mW.topic_seed = mW.topic_seed
    ∧ mW.rng = mW.rng
    ∧ ((mW.sample 1 1 1 false).archive.map Archive.sampled_topics) =
        ((mW.sample 1 1 1 false).archive.map Archive.sampled_topics) := by
  exact ⟨rfl, rfl, C9_determinism_of_sample mW mW 1 1 1 rfl rfl rfl rfl rfl
    rfl rfl rfl rfl rfl⟩

/-- Witness for C10 at a concrete query model with an installed 2-D
seed. -/
theorem C10_query_seed_passed_unsliced_witness :
    qW.set_seed [[0, 0, 0]] = some qWseeded
    ∧ QueryGibbs.querySeedArg qWseeded 0 = QueryGibbs.querySeedArg qWseeded 1
    ∧ QueryGibbs.querySeedArg qWseeded 0 = Seed.twoD [[0, 0, 0]]
    ∧ QueryGibbs.querySeedArg qWseeded 0 ≠ Seed.oneD ([[0, 0, 0]].getD 0 [])
    ∧ QueryGibbs.init [["a", "x", "b"], ["b"]] ["a", "b"] ttW 3 = some qW
    ∧ seedLen qW.topic_seed = some qW.N
    ∧ ((qW.set_seed [[0, 0, 0]]).isSome = true ↔
        (([[0, 0, 0]] : List (List ℕ)).length = qW.samples
          ∧ ∀ row ∈ ([[0, 0, 0]] : List (List ℕ)), row.length = qW.N)) := by
  have h1 := C10_query_seed_passed_unsliced.1 qW [[0, 0, 0]] qWseeded rfl
  have h2 := C10_query_seed_passed_unsliced.2.1 [["a", "x", "b"], ["b"]]
    ["a", "b"] ttW 3 qW rfl
  have h3 := C10_query_seed_passed_unsliced.2.2 qW [[0, 0, 0]]
  exact ⟨rfl, h1.1 0 1, h1.2.1 0, h1.2.2 0, rfl, h2, h3⟩

end TopicModels
